import Mathlib

/-!
Affordance extraction of `hpp-affordance`.

A shallow embedding of `src/src/affordance-extraction.cc` and
`include/hpp/affordance/operations.hh`.

Modelling conventions.

* Scalars (`double`, and the one `float` constant) are elements of a linear
  ordered field `K`; the arithmetic is exact.  Concrete runs take `K = ℚ`.
* A `std::vector<unsigned int>` is a `List Nat`.
* Undefined behaviour of the C++ program that the control flow can reach
  (`pop_back` on an empty vector, indexing `allTris` out of range) is an
  explicit `Fault`; the functions return `Except Fault _`.
* The recursion of `searchLinkedTriangles` is driven by a fuel argument; the
  caller passes one more than the size of the pool, which is always enough
  (`AffordanceAnalysis_fault`).
* The library function `sqrt` is a parameter of `Support45Operation`.
-/

namespace hpp.affordance

/-! ## Vectors -/

/-- Three-component vector of the geometry library (`fcl::Vec3f`). -/
structure Vec3 (K : Type) where
  x : K
  y : K
  z : K

namespace Vec3

variable {K : Type} [LinearOrderedField K]

/-- Component-wise difference, `a - b`. -/
def sub (a b : Vec3 K) : Vec3 K := ⟨a.x - b.x, a.y - b.y, a.z - b.z⟩

instance : Sub (Vec3 K) := ⟨sub⟩

/-- Scalar product, `a.dot (b)`. -/
def dot (a b : Vec3 K) : K := a.x * b.x + a.y * b.y + a.z * b.z

/-- Squared Euclidean length, `v.squaredNorm ()`. -/
def squaredNorm (v : Vec3 K) : K := v.x * v.x + v.y * v.y + v.z * v.z

/-- Squared Euclidean length, `v.sqrLength ()` (the older name of `squaredNorm`). -/
def sqrLength (v : Vec3 K) : K := v.x * v.x + v.y * v.y + v.z * v.z

end Vec3

/-! ## Operations (`operations.hh`) -/

/-- Class `OperationBase`: the data members and the virtual `requirement`. -/
structure OperationBase (K : Type) where
  zWorld_ : Vec3 K
  margin_ : K
  neighbouringTriangleMargin_ : K
  minArea_ : K
  affordance_ : String
  requirement : Vec3 K → Bool

section Operations

variable {K : Type} [LinearOrderedField K]

/-- Class `SupportOperation`, the constructor with all four arguments given;
`requirement` is `(zWorld_ - normal).squaredNorm() < margin_`. -/
def SupportOperation (margin nbTriMargin minArea : K) (affordanceName : String) :
    OperationBase K where
  zWorld_ := ⟨0, 0, 1⟩
  margin_ := margin
  neighbouringTriangleMargin_ := nbTriMargin
  minArea_ := minArea
  affordance_ := affordanceName
  requirement := fun normal => decide (((⟨0, 0, 1⟩ : Vec3 K) - normal).squaredNorm < margin)

/-- Class `LeanOperation`, the constructor with all four arguments given;
`requirement` is `fabs (normal.dot (zWorld_)) < margin_`. -/
def LeanOperation (margin nbTriMargin minArea : K) (affordanceName : String) :
    OperationBase K where
  zWorld_ := ⟨0, 0, 1⟩
  margin_ := margin
  neighbouringTriangleMargin_ := nbTriMargin
  minArea_ := minArea
  affordance_ := affordanceName
  requirement := fun normal => decide (|normal.dot (⟨0, 0, 1⟩ : Vec3 K)| < margin)

/-- Member `axis45_` of `Support45Operation`, `(1./sqrt(2.), 0, 1./sqrt(2.))`.  The
library function `sqrt` is a parameter. -/
def Support45Operation.axis45_ (sqrt : K → K) : Vec3 K := ⟨1 / sqrt 2, 0, 1 / sqrt 2⟩

/-- The local vector `projectedNormal` of `Support45Operation::requirement`. -/
def Support45Operation.projectedNormal (sqrt : K → K) (normal : Vec3 K) : Vec3 K :=
  ⟨sqrt (normal.x * normal.x + normal.y * normal.y), 0, normal.z⟩

set_option linter.unusedVariables false in
/-- Class `Support45Operation`, the constructor with all four arguments given (it
hands `0.05` to the base class in the place of `nbTriMargin`); `requirement` is
`(axis45_ - projectedNormal).squaredNorm() < margin_`. -/
def Support45Operation (sqrt : K → K) (margin nbTriMargin minArea : K)
    (affordanceName : String) : OperationBase K where
  zWorld_ := ⟨0, 0, 1⟩
  margin_ := margin
  neighbouringTriangleMargin_ := 5 / 100
  minArea_ := minArea
  affordance_ := affordanceName
  requirement := fun normal =>
    decide ((Support45Operation.axis45_ sqrt
      - Support45Operation.projectedNormal sqrt normal).squaredNorm < margin)

end Operations

/-! ## Triangles -/

/-- Class `fcl::Triangle`: three vertex ids `vids[3]`.  The field `past` is the
word that the out-of-range read `[3]` of `searchLinkedTriangles` returns; the
language does not define it, so it is an arbitrary part of the input. -/
structure FclTriangle where
  v0 : Nat
  v1 : Nat
  v2 : Nat
  past : Nat

/-- Index operator `operator[]` of `fcl::Triangle`, `return vids[i]`. -/
def FclTriangle.get (t : FclTriangle) (i : Nat) : Nat :=
  match i with
  | 0 => t.v0
  | 1 => t.v1
  | 2 => t.v2
  | _ => t.past

/-- Modelled from the spec: the record `Triangle` of `affordance-extraction.hh`
(the header is not part of the sources at hand): the index triple of the mesh
triangle, its normal and its area.  The world-frame points are used only to
compute `normal` and `area`, hence left out. -/
structure Triangle (K : Type) where
  fclTri : FclTriangle
  normal : Vec3 K
  area : K

/-- Modelled from the spec: the record `Affordance` of
`affordance-extraction.hh`: the triangle indices of one region.  The reference
to the analysed object is the same for every Affordance of a run. -/
structure Affordance where
  indices_ : List Nat
deriving DecidableEq

/-! ## Vectors of indices -/

/-- Undefined behaviour the program can run into, and fuel exhaustion of the model. -/
inductive Fault where
  | popBackEmpty
  | indexOutOfRange
  | outOfFuel
deriving DecidableEq

/-- Algorithm `std::remove (v.begin (), v.end (), value)`: the elements different
from `value` move to the front in order; the vector keeps its size, the places
behind them keep what they held. -/
def stdRemove (v : List Nat) (value : Nat) : List Nat :=
  let kept := v.filter (fun e => decide (e ≠ value))
  kept ++ v.drop kept.length

/-- Member `pop_back ()`; undefined on an empty vector. -/
def popBack (v : List Nat) : Except Fault (List Nat) :=
  match v with
  | [] => .error .popBackEmpty
  | _ :: _ => .ok v.dropLast

/-- The idiom `std::remove (v.begin (), v.end (), value); v.pop_back ();`. -/
def removeValue (v : List Nat) (value : Nat) : Except Fault (List Nat) :=
  popBack (stdRemove v value)

/-- A `for` loop over the elements of `xs` whose body may fault. -/
def forEach {σ α : Type} (body : σ → α → Except Fault σ) : List α → σ → Except Fault σ
  | [], s => .ok s
  | a :: as, s =>
    match body s a with
    | .ok s' => forEach body as s'
    | .error e => .error e

/-! ## Region growing (`searchLinkedTriangles`) -/

section Search

variable {K : Type} [LinearOrderedField K]

/-- The constant `marginRad = 0.3` of `searchLinkedTriangles`. -/
def marginRad : K := 3 / 10

/-- The three reference parameters `listPotential`, `searchableTris` and `area`
of `searchLinkedTriangles`. -/
structure SearchState (K : Type) where
  listPotential : List Nat
  searchableTris : List Nat
  area : K

/-- Body of the loop over `vertIdx` in `searchLinkedTriangles`, for the
candidate `searchIdx`; `recurse` is the recursive call. -/
def vertexStep (recurse : Nat → SearchState K → Except Fault (SearchState K))
    (refOp : OperationBase K) (refTri : Triangle K) (searchIdx : Nat) (searchTri : Triangle K)
    (st : SearchState K) (vertIdx : Nat) : Except Fault (SearchState K) :=
  if refTri.fclTri.get vertIdx = searchTri.fclTri.get 0
      ∨ refTri.fclTri.get vertIdx = searchTri.fclTri.get 3
      ∨ refTri.fclTri.get vertIdx = searchTri.fclTri.get 2 then
    if refOp.requirement searchTri.normal then
      if (searchTri.normal - refTri.normal).sqrLength < (marginRad : K) then
        recurse searchIdx
          { st with area := st.area + searchTri.area
                    listPotential := st.listPotential ++ [searchIdx] }
      else .ok st
    else
      match removeValue st.searchableTris searchIdx with
      | .ok pool => .ok { st with searchableTris := pool }
      | .error e => .error e
  else .ok st

/-- Body of the loop over `searchIdx` in `searchLinkedTriangles`. -/
def candidateStep (recurse : Nat → SearchState K → Except Fault (SearchState K))
    (refOp : OperationBase K) (refTri : Triangle K)
    (st : SearchState K) (cand : Nat × Triangle K) : Except Fault (SearchState K) :=
  if cand.1 ∈ st.searchableTris then
    forEach (vertexStep recurse refOp refTri cand.1 cand.2) [0, 1, 2] st
  else .ok st

/-- Function `searchLinkedTriangles`. -/
def searchLinkedTriangles (refOp : OperationBase K) (allTris : List (Triangle K)) :
    Nat → Nat → SearchState K → Except Fault (SearchState K)
  | 0, _, _ => .error .outOfFuel
  | fuel + 1, refTriIdx, st =>
    match allTris[refTriIdx]? with
    | none => .error .indexOutOfRange
    | some refTri =>
      match removeValue st.searchableTris refTriIdx with
      | .error e => .error e
      | .ok pool =>
        forEach (candidateStep (searchLinkedTriangles refOp allTris fuel) refOp refTri)
          allTris.enum { st with searchableTris := pool }

end Search

/-! ## Classification (`AffordanceAnalysis`) -/

section Analysis

variable {K : Type} [LinearOrderedField K]

/-- The local variables of `AffordanceAnalysis` that live across the loop over
`triIdx`; `foundAffordances` is the member `affordances_` of the result. -/
structure AnalysisState (K : Type) where
  unsetTriangles : List Nat
  totArea : K
  potentialAffordances : List (List Nat)
  foundAffordances : List (List Affordance)

/-- The loop over `removeIdx` of `AffordanceAnalysis`. -/
def removeCommitted (unsetTriangles : List Nat) (region : List Nat) :
    Except Fault (List Nat) :=
  forEach (fun unset idx => removeValue unset idx) region unsetTriangles

/-- The statements guarded by `requirement` in the loop over `opIdx`, up to the
`break`. -/
def growAndCommit (triangles : List (Triangle K)) (triIdx : Nat) (tri : Triangle K)
    (opIdx : Nat) (op : OperationBase K) (st : AnalysisState K) :
    Except Fault (AnalysisState K) :=
  let unseenTriangles := st.unsetTriangles
  match searchLinkedTriangles op triangles (unseenTriangles.length + 1) triIdx
      { listPotential := st.potentialAffordances.getD opIdx [] ++ [triIdx]
        searchableTris := unseenTriangles
        area := st.totArea + tri.area } with
  | .error e => .error e
  | .ok grown =>
    if grown.area > op.minArea_ then
      match removeCommitted st.unsetTriangles grown.listPotential with
      | .error e => .error e
      | .ok unset =>
        .ok { unsetTriangles := unset
              totArea := grown.area
              potentialAffordances := st.potentialAffordances.set opIdx []
              foundAffordances :=
                st.foundAffordances.set opIdx
                  (st.foundAffordances.getD opIdx [] ++ [⟨grown.listPotential⟩]) }
    else
      .ok { st with totArea := grown.area
                    potentialAffordances :=
                      st.potentialAffordances.set opIdx grown.listPotential }

/-- The loop over `opIdx` of `AffordanceAnalysis`, from `opIdx` on; it ends at the
first operation whose `requirement` holds (`break`). -/
def opLoop (triangles : List (Triangle K)) (triIdx : Nat) (tri : Triangle K) :
    List (Nat × OperationBase K) → AnalysisState K → Except Fault (AnalysisState K)
  | [], st => .ok st
  | (opIdx, op) :: rest, st =>
    if op.requirement tri.normal then
      growAndCommit triangles triIdx tri opIdx op st
    else opLoop triangles triIdx tri rest st

/-- Body of the loop over `triIdx` of `AffordanceAnalysis`. -/
def seedStep (triangles : List (Triangle K)) (opVec : List (OperationBase K))
    (st : AnalysisState K) (seed : Nat × Triangle K) : Except Fault (AnalysisState K) :=
  if seed.1 ∈ st.unsetTriangles then
    opLoop triangles seed.1 seed.2 opVec.enum st
  else .ok st

/-- Function `AffordanceAnalysis`.  The argument `triangles` is the vector built
by the first loop from the mesh and the pose of the object; the result is the
member `affordances_` of the returned `SemanticsData`. -/
def AffordanceAnalysis (triangles : List (Triangle K)) (opVec : List (OperationBase K)) :
    Except Fault (List (List Affordance)) :=
  match forEach (seedStep triangles opVec) triangles.enum
      { unsetTriangles := List.range triangles.length
        totArea := 0
        potentialAffordances := List.replicate opVec.length []
        foundAffordances := List.replicate opVec.length [] } with
  | .ok st => .ok st.foundAffordances
  | .error e => .error e

end Analysis

/-! ## Auxiliary definitions -/

section Auxiliary

variable {K : Type} [LinearOrderedField K]

/-- The state in which `AffordanceAnalysis` enters the loop over `triIdx`. -/
def initialState (triangles : List (Triangle K)) (opVec : List (OperationBase K)) :
    AnalysisState K where
  unsetTriangles := List.range triangles.length
  totArea := 0
  potentialAffordances := List.replicate opVec.length []
  foundAffordances := List.replicate opVec.length []

/-- Triangle `i` exists and its normal passes the `requirement` of `refOp`. -/
def Qualifies (refOp : OperationBase K) (allTris : List (Triangle K)) (i : Nat) : Prop :=
  ∃ t, allTris[i]? = some t ∧ refOp.requirement t.normal = true

/-- All indices held for operation `k`, pending or committed, are indices of
triangles whose normal passes the `requirement` of operation `k`. -/
def AllQualify (triangles : List (Triangle K)) (opVec : List (OperationBase K))
    (st : AnalysisState K) : Prop :=
  ∀ k op, opVec[k]? = some op →
    (∀ i ∈ st.potentialAffordances.getD k [], Qualifies op triangles i) ∧
    (∀ aff ∈ st.foundAffordances.getD k [], ∀ i ∈ aff.indices_, Qualifies op triangles i)

/-- There are two buckets and the second one is empty. -/
def OnlyFirstBucket (st : AnalysisState K) : Prop := ∃ b, st.foundAffordances = [b, []]

/-- The sum of the areas of the triangles listed in `indices`, each occurrence
counted. -/
def regionArea (triangles : List (Triangle K)) (indices : List Nat) : K :=
  (indices.map (fun i => match triangles[i]? with
    | some t => t.area
    | none => 0)).sum

/-- The Euclidean distance of two points, `sqrt` of the squared length of their
difference. -/
def euclideanDistance (sqrt : K → K) (a b : Vec3 K) : K := sqrt ((a - b).squaredNorm)

/-- A constructor call `SupportOperation (...)` with the default arguments of the
declaration: an argument that the call leaves out is `none`. -/
def SupportOperation.construct (margin nbTriMargin minArea : Option K)
    (affordanceName : Option String) : OperationBase K :=
  SupportOperation (margin.getD (3 / 10)) (nbTriMargin.getD (3 / 10)) (minArea.getD (5 / 100))
    (affordanceName.getD "Support")

/-- A constructor call `LeanOperation (...)` with the default arguments of the
declaration: an argument that the call leaves out is `none`. -/
def LeanOperation.construct (margin nbTriMargin minArea : Option K)
    (affordanceName : Option String) : OperationBase K :=
  LeanOperation (margin.getD (3 / 10)) (nbTriMargin.getD (3 / 10)) (minArea.getD (5 / 100))
    (affordanceName.getD "Lean")

/-- A constructor call `Support45Operation (...)` with the default arguments of
the declaration: an argument that the call leaves out is `none`. -/
def Support45Operation.construct (sqrt : K → K) (margin nbTriMargin minArea : Option K)
    (affordanceName : Option String) : OperationBase K :=
  Support45Operation sqrt (margin.getD (3 / 10)) (nbTriMargin.getD (3 / 10))
    (minArea.getD (5 / 100)) (affordanceName.getD "Support45")

/-- The body of `searchLinkedTriangles` with the recursive call as the
parameter `recurse`. -/
def searchBody (recurse : Nat → SearchState K → Except Fault (SearchState K))
    (refOp : OperationBase K) (allTris : List (Triangle K)) (refTriIdx : Nat)
    (st : SearchState K) : Except Fault (SearchState K) :=
  match allTris[refTriIdx]? with
  | none => .error .indexOutOfRange
  | some refTri =>
    match removeValue st.searchableTris refTriIdx with
    | .error e => .error e
    | .ok pool =>
      forEach (candidateStep recurse refOp refTri) allTris.enum { st with searchableTris := pool }

/-- Operation `b` is operation `a` but for the value of
`neighbouringTriangleMargin_`. -/
def SameExceptNeighbourMargin (a b : OperationBase K) : Prop :=
  b = { a with neighbouringTriangleMargin_ := b.neighbouringTriangleMargin_ }

/-- The pool `q` came from the pool `p` by shrinking: it is shorter or equal,
holds only indices of `p`, and is a sub-list of `p` when `p` holds no index
twice. -/
def PoolShrunk (p q : List Nat) : Prop :=
  q.length ≤ p.length ∧ q ⊆ p ∧ (p.Nodup → List.Sublist q p)

end Auxiliary

instance instDecidableEqSearchState {K : Type} [DecidableEq K] : DecidableEq (SearchState K) :=
  fun a b =>
    if h : a.listPotential = b.listPotential ∧ a.searchableTris = b.searchableTris
        ∧ a.area = b.area then
      isTrue (by
        cases a
        cases b
        simp only [SearchState.mk.injEq]
        exact h)
    else
      isFalse (fun e => h (e ▸ ⟨rfl, rfl, rfl⟩))

instance instDecidableEqExcept {ε α : Type} [DecidableEq ε] [DecidableEq α] :
    DecidableEq (Except ε α) := fun a b =>
  match a, b with
  | .ok x, .ok y => if h : x = y then isTrue (h ▸ rfl) else isFalse (fun e => h (Except.ok.inj e))
  | .error x, .error y =>
    if h : x = y then isTrue (h ▸ rfl) else isFalse (fun e => h (Except.error.inj e))
  | .ok _, .error _ => isFalse (fun e => Except.noConfusion e)
  | .error _, .ok _ => isFalse (fun e => Except.noConfusion e)

/-! ## Sample meshes and operations -/

/-- The normal `(0, 0, 1)`. -/
def up : Vec3 ℚ := ⟨0, 0, 1⟩

/-- Operation `SupportOperation ()`, all arguments at their defaults. -/
def defaultSupport : OperationBase ℚ := SupportOperation (3 / 10) (3 / 10) (5 / 100) "Support"

/-- A Support operation with margin `1`: it accepts every normal that
`defaultSupport` accepts. -/
def wideSupport : OperationBase ℚ := SupportOperation 1 (3 / 10) (5 / 100) "SupportWide"

/-- A Support operation with margin `0.5`. -/
def halfSupport : OperationBase ℚ := SupportOperation (1 / 2) (3 / 10) (5 / 100) "Support"

/-- A Support operation whose neighbouring-triangle margin is `0.1`. -/
def strictNeighbourSupport : OperationBase ℚ :=
  SupportOperation (3 / 10) (1 / 10) (5 / 100) "Support"

/-- A flat unit square split along the diagonal `0`-`2` into the triangles
`(0, 1, 2)` and `(0, 2, 3)`, each of area `1/2`. -/
def flatSquare : List (Triangle ℚ) :=
  [⟨⟨0, 1, 2, 99⟩, up, 1 / 2⟩, ⟨⟨0, 2, 3, 99⟩, up, 1 / 2⟩]

/-- The same square, the second triangle written `(2, 3, 0)` (the same winding,
started at vertex `2`). -/
def flatSquareRotated : List (Triangle ℚ) :=
  [⟨⟨0, 1, 2, 99⟩, up, 1 / 2⟩, ⟨⟨2, 3, 0, 99⟩, up, 1 / 2⟩]

/-- Two horizontal triangles without a common vertex, of area `1` and `0.01`. -/
def twoIslands : List (Triangle ℚ) :=
  [⟨⟨0, 1, 2, 99⟩, up, 1⟩, ⟨⟨3, 4, 5, 99⟩, up, 1 / 100⟩]

/-- Triangles `0` and `1` share vertex `0`; triangle `0` passes `halfSupport`
and `wideSupport`, triangle `1` only `wideSupport`; triangles `2` and `3` are
isolated, `2` horizontal and `3` facing down. -/
def sharedCorner : List (Triangle ℚ) :=
  [⟨⟨0, 1, 2, 99⟩, ⟨3 / 5, 0, 4 / 5⟩, 1 / 100⟩, ⟨⟨0, 3, 4, 99⟩, ⟨4 / 5, 0, 3 / 5⟩, 1⟩,
   ⟨⟨5, 6, 7, 99⟩, up, 1⟩, ⟨⟨8, 9, 10, 99⟩, ⟨0, 0, -1⟩, 1⟩]

/-- Three horizontal triangles of total area `0.045`: `0` and `1` share the
edge `0`-`2`, triangle `2` is isolated. -/
def smallPatch : List (Triangle ℚ) :=
  [⟨⟨0, 1, 2, 99⟩, up, 1 / 100⟩, ⟨⟨2, 3, 0, 99⟩, up, 3 / 100⟩, ⟨⟨5, 6, 7, 99⟩, up, 1 / 200⟩]

/-- Two triangles that share the vertices `0` and `2`; their normals `(0, 0, 1)`
and `(5/13, 0, 12/13)` differ by `2/13` in squared length. -/
def foldedSquare : List (Triangle ℚ) :=
  [⟨⟨0, 1, 2, 99⟩, up, 1 / 2⟩, ⟨⟨0, 2, 3, 99⟩, ⟨5 / 13, 0, 12 / 13⟩, 1 / 2⟩]

/-- Two horizontal triangles that share the vertex id `0`; in the second
triangle it stands in slot `1`. -/
def slotOnePair : List (Triangle ℚ) :=
  [⟨⟨0, 1, 2, 99⟩, up, 1 / 2⟩, ⟨⟨5, 0, 6, 99⟩, up, 1 / 2⟩]

/-- The pair of `slotOnePair` with the shared vertex id in slot `0` of the second
triangle. -/
def slotZeroPair : List (Triangle ℚ) :=
  [⟨⟨0, 1, 2, 99⟩, up, 1 / 2⟩, ⟨⟨0, 5, 6, 99⟩, up, 1 / 2⟩]

/-- Two horizontal triangles without a common vertex, each of area `0.03`. -/
def twoCrumbs : List (Triangle ℚ) :=
  [⟨⟨0, 1, 2, 99⟩, up, 3 / 100⟩, ⟨⟨3, 4, 5, 99⟩, up, 3 / 100⟩]

/-- A single horizontal triangle of area `1`. -/
def oneTile : List (Triangle ℚ) := [⟨⟨0, 1, 2, 99⟩, up, 1⟩]

/-- A Support operation with margin `1` and the minimum area `100`. -/
def highThresholdSupport : OperationBase ℚ := SupportOperation 1 (3 / 10) 100 "SupportWide"

/-! ## Vectors and index pools -/

section VectorLemmas

variable {K : Type} [LinearOrderedField K]

@[simp] theorem Vec3.sub_x (a b : Vec3 K) : (a - b).x = a.x - b.x := rfl

@[simp] theorem Vec3.sub_y (a b : Vec3 K) : (a - b).y = a.y - b.y := rfl

@[simp] theorem Vec3.sub_z (a b : Vec3 K) : (a - b).z = a.z - b.z := rfl

theorem Vec3.squaredNorm_nonneg (v : Vec3 K) : 0 ≤ v.squaredNorm := by
  unfold Vec3.squaredNorm
  nlinarith [mul_self_nonneg v.x, mul_self_nonneg v.y, mul_self_nonneg v.z]

end VectorLemmas

theorem stdRemove_length (v : List Nat) (value : Nat) :
    (stdRemove v value).length = v.length := by
  simp only [stdRemove, List.length_append, List.length_drop]
  have := List.length_filter_le (fun e => decide (e ≠ value)) v
  omega

theorem popBack_length {v w : List Nat} (h : popBack v = .ok w) : w.length + 1 = v.length := by
  cases v with
  | nil => simp [popBack] at h
  | cons a as =>
    simp only [popBack, Except.ok.injEq] at h
    subst h
    simp

theorem removeValue_length {v w : List Nat} {value : Nat} (h : removeValue v value = .ok w) :
    w.length + 1 = v.length := by
  have := popBack_length h
  rwa [stdRemove_length] at this

theorem removeValue_fault {v : List Nat} {value : Nat} {e : Fault}
    (h : removeValue v value = .error e) : e = .popBackEmpty := by
  unfold removeValue at h
  cases hv : stdRemove v value with
  | nil => simp only [hv, popBack, Except.error.injEq] at h; exact h.symm
  | cons a as => simp [hv, popBack] at h

/-! ## Loop invariants -/

theorem forEach_invariant {σ α : Type} (P : σ → Prop) (body : σ → α → Except Fault σ)
    (xs : List α)
    (hstep : ∀ s a s', a ∈ xs → P s → body s a = .ok s' → P s') :
    ∀ s s', P s → forEach body xs s = .ok s' → P s' := by
  induction xs with
  | nil =>
    intro s s' hs h
    simp only [forEach, Except.ok.injEq] at h
    exact h ▸ hs
  | cons a as ih =>
    intro s s' hs h
    simp only [forEach] at h
    cases hb : body s a with
    | error e => simp [hb] at h
    | ok s1 =>
      simp only [hb] at h
      exact ih (fun t b t' hb' => hstep t b t' (List.mem_cons_of_mem _ hb')) s1 s'
        (hstep s a s1 (List.mem_cons_self _ _) hs hb) h

/-- A loop whose body, from a state in `P`, faults only with faults in `F` and
otherwise stays in `P`, does the same as a whole. -/
theorem forEach_safe {σ α : Type} (P : σ → Prop) (F : Fault → Prop)
    (body : σ → α → Except Fault σ) (xs : List α)
    (hstep : ∀ s a, a ∈ xs → P s →
      (∀ e, body s a = .error e → F e) ∧ ∀ s', body s a = .ok s' → P s') :
    ∀ s, P s →
      (∀ e, forEach body xs s = .error e → F e) ∧ ∀ s', forEach body xs s = .ok s' → P s' := by
  induction xs with
  | nil =>
    intro s hs
    refine ⟨by simp [forEach], ?_⟩
    intro s' h
    simp only [forEach, Except.ok.injEq] at h
    exact h ▸ hs
  | cons a as ih =>
    intro s hs
    have ha := hstep s a (List.mem_cons_self _ _) hs
    simp only [forEach]
    cases hb : body s a with
    | error e' =>
      refine ⟨?_, by simp⟩
      intro e h
      simp only [Except.error.injEq] at h
      exact ha.1 e (by rw [hb, h])
    | ok s1 =>
      exact ih (fun t b hb' => hstep t b (List.mem_cons_of_mem _ hb')) s1 (ha.2 s1 hb)

theorem removeCommitted_fault {unset : List Nat} {region : List Nat} {e : Fault}
    (h : removeCommitted unset region = .error e) : e = .popBackEmpty := by
  refine (forEach_safe (fun _ : List Nat => True) (fun e => e = Fault.popBackEmpty)
    (fun u idx => removeValue u idx) region ?_ unset trivial).1 e h
  intro s a _ _
  exact ⟨fun e he => removeValue_fault he, fun _ _ => trivial⟩

section SearchLemmas

variable {K : Type} [LinearOrderedField K]

/-- Every index that `searchLinkedTriangles` appends to `listPotential` is the
index of a triangle whose normal passes `requirement`. -/
theorem searchLinkedTriangles_listPotential (refOp : OperationBase K)
    (allTris : List (Triangle K)) (good : Nat → Prop)
    (hgood : ∀ i, Qualifies refOp allTris i → good i) :
    ∀ (fuel refTriIdx : Nat) (st st' : SearchState K),
      (∀ i ∈ st.listPotential, good i) →
      searchLinkedTriangles refOp allTris fuel refTriIdx st = .ok st' →
      ∀ i ∈ st'.listPotential, good i := by
  intro fuel
  induction fuel with
  | zero => intro r st st' _ h; simp [searchLinkedTriangles] at h
  | succ fuel ih =>
    intro r st st' hst h
    simp only [searchLinkedTriangles] at h
    cases hr : allTris[r]? with
    | none => simp [hr] at h
    | some refTri =>
      simp only [hr] at h
      cases hp : removeValue st.searchableTris r with
      | error e => simp [hp] at h
      | ok pool =>
        simp only [hp] at h
        refine forEach_invariant (fun s : SearchState K => ∀ i ∈ s.listPotential, good i) _ _ ?_
          _ _ ?_ h
        swap
        · exact hst
        intro s cand s' hcand hs hstep
        simp only [candidateStep] at hstep
        split at hstep
        · refine forEach_invariant (fun s : SearchState K => ∀ i ∈ s.listPotential, good i)
            _ _ ?_ _ _ hs hstep
          intro t v t' _ ht hv
          simp only [vertexStep] at hv
          split at hv
          · split at hv
            · rename_i hreq
              split at hv
              · refine ih _ _ _ ?_ hv
                intro i hi
                rcases List.mem_append.1 hi with hi | hi
                · exact ht i hi
                · have hi' : i = cand.1 := by simpa using hi
                  subst hi'
                  exact hgood _ ⟨cand.2, List.mem_enum_iff_getElem?.1 hcand, hreq⟩
              · simp only [Except.ok.injEq] at hv
                exact hv ▸ ht
            · cases hq : removeValue t.searchableTris cand.1 with
              | error e => simp [hq] at hv
              | ok q =>
                simp only [hq, Except.ok.injEq] at hv
                subst hv
                exact ht
          · simp only [Except.ok.injEq] at hv
            exact hv ▸ ht
        · simp only [Except.ok.injEq] at hstep
          exact hstep ▸ hs

/-- With more fuel than the pool has elements, and a reference index inside
the triangle vector, `searchLinkedTriangles` faults only by `pop_back` on an
empty pool, and otherwise returns a pool that is strictly shorter. -/
theorem searchLinkedTriangles_fuel (refOp : OperationBase K) (allTris : List (Triangle K)) :
    ∀ (fuel refTriIdx : Nat) (st : SearchState K), st.searchableTris.length < fuel →
      refTriIdx < allTris.length →
      (∀ e, searchLinkedTriangles refOp allTris fuel refTriIdx st = .error e →
        e = .popBackEmpty) ∧
      ∀ st', searchLinkedTriangles refOp allTris fuel refTriIdx st = .ok st' →
        st'.searchableTris.length < st.searchableTris.length := by
  intro fuel
  induction fuel with
  | zero => intro r st h; omega
  | succ fuel ih =>
    intro r st hlen hr
    simp only [searchLinkedTriangles]
    rw [List.getElem?_eq_getElem hr]
    simp only []
    cases hp : removeValue st.searchableTris r with
    | error e =>
      have := removeValue_fault hp
      subst this
      simp
    | ok pool =>
      simp only []
      have hpl := removeValue_length hp
      have key := forEach_safe (fun s : SearchState K => s.searchableTris.length ≤ pool.length)
        (fun e => e = Fault.popBackEmpty)
        (candidateStep (searchLinkedTriangles refOp allTris fuel) refOp allTris[r])
        allTris.enum ?_ { st with searchableTris := pool } (Nat.le_refl _)
      · refine ⟨key.1, ?_⟩
        intro st' h
        have := key.2 st' h
        simp only at this
        omega
      · intro s cand hcand hs
        have hcl : cand.1 < allTris.length := List.fst_lt_of_mem_enum hcand
        simp only [candidateStep]
        split
        · refine forEach_safe (fun s : SearchState K => s.searchableTris.length ≤ pool.length)
            (fun e => e = Fault.popBackEmpty) _ _ ?_ s hs
          intro t v _ ht
          simp only [vertexStep]
          split
          · split
            · split
              · have hrec := ih cand.1
                  { t with area := t.area + cand.2.area
                           listPotential := t.listPotential ++ [cand.1] }
                  (by simp only; omega) hcl
                refine ⟨hrec.1, ?_⟩
                intro s' h'
                have := hrec.2 s' h'
                simp only at this
                omega
              · refine ⟨by simp, ?_⟩
                intro s' h'
                simp only [Except.ok.injEq] at h'
                exact h' ▸ ht
            · cases hq : removeValue t.searchableTris cand.1 with
              | error e =>
                have := removeValue_fault hq
                subst this
                simp
              | ok q =>
                have hql := removeValue_length hq
                refine ⟨by simp, ?_⟩
                intro s' h'
                simp only [Except.ok.injEq] at h'
                subst h'
                simp only
                omega
          · refine ⟨by simp, ?_⟩
            intro s' h'
            simp only [Except.ok.injEq] at h'
            exact h' ▸ ht
        · refine ⟨by simp, ?_⟩
          intro s' h'
          simp only [Except.ok.injEq] at h'
          exact h' ▸ hs

end SearchLemmas

/-! ## Buckets -/

theorem mem_getD_set {α : Type} {l : List (List α)} {n k : Nat} {a : List α} {x : α}
    (h : x ∈ (l.set n a).getD k []) : (k = n ∧ x ∈ a) ∨ x ∈ l.getD k [] := by
  by_cases hk : n = k
  · subst hk
    by_cases hn : n < l.length
    · left
      refine ⟨rfl, ?_⟩
      simpa [List.getD_eq_getElem?_getD, List.getElem?_set_self, hn] using h
    · right
      have hl : l.length ≤ n := Nat.le_of_not_lt hn
      simp [List.getD_eq_getElem?_getD, List.getElem?_eq_none, hl] at h
  · right
    simpa [List.getD_eq_getElem?_getD, List.getElem?_set_ne hk] using h

section AnalysisLemmas

variable {K : Type} [LinearOrderedField K]

theorem AffordanceAnalysis_eq (triangles : List (Triangle K)) (opVec : List (OperationBase K)) :
    AffordanceAnalysis triangles opVec =
      match forEach (seedStep triangles opVec) triangles.enum (initialState triangles opVec) with
      | .ok st => .ok st.foundAffordances
      | .error e => .error e := rfl

/-- An invariant of the loop over `opIdx` that every run of the guarded
statements keeps is kept by the loop. -/
theorem opLoop_invariant (P : AnalysisState K → Prop) (triangles : List (Triangle K))
    (triIdx : Nat) (tri : Triangle K) (ops : List (Nat × OperationBase K))
    (hgrow : ∀ opIdx op st st', (opIdx, op) ∈ ops → op.requirement tri.normal = true → P st →
      growAndCommit triangles triIdx tri opIdx op st = .ok st' → P st') :
    ∀ st st', P st → opLoop triangles triIdx tri ops st = .ok st' → P st' := by
  induction ops with
  | nil =>
    intro st st' hst h
    simp only [opLoop, Except.ok.injEq] at h
    exact h ▸ hst
  | cons o rest ih =>
    obtain ⟨opIdx, op⟩ := o
    intro st st' hst h
    simp only [opLoop] at h
    split at h
    · rename_i hreq
      exact hgrow opIdx op st st' (List.mem_cons_self _ _) hreq hst h
    · exact ih (fun i o s s' hm => hgrow i o s s' (List.mem_cons_of_mem _ hm)) st st' hst h

/-- An invariant that holds on entry of `AffordanceAnalysis` and that every run
of the guarded statements keeps holds for the state at return. -/
theorem analysis_invariant (P : AnalysisState K → Prop) (triangles : List (Triangle K))
    (opVec : List (OperationBase K))
    (hinit : P (initialState triangles opVec))
    (hgrow : ∀ triIdx tri opIdx op st st', triangles[triIdx]? = some tri →
      opVec[opIdx]? = some op → op.requirement tri.normal = true → P st →
      growAndCommit triangles triIdx tri opIdx op st = .ok st' → P st') :
    ∀ st, forEach (seedStep triangles opVec) triangles.enum (initialState triangles opVec)
      = .ok st → P st := by
  intro st h
  refine forEach_invariant P _ _ ?_ _ _ hinit h
  intro s seed s' hseed hs hstep
  simp only [seedStep] at hstep
  split at hstep
  · refine opLoop_invariant P triangles seed.1 seed.2 opVec.enum ?_ s s' hs hstep
    intro opIdx op t t' hop hreq ht hg
    exact hgrow seed.1 seed.2 opIdx op t t' (List.mem_enum_iff_getElem?.1 hseed)
      (List.mk_mem_enum_iff_getElem?.1 hop) hreq ht hg
  · simp only [Except.ok.injEq] at hstep
    exact hstep ▸ hs

theorem growAndCommit_fault (triangles : List (Triangle K)) (triIdx : Nat) (tri : Triangle K)
    (opIdx : Nat) (op : OperationBase K) (st : AnalysisState K) (e : Fault)
    (htri : triIdx < triangles.length)
    (h : growAndCommit triangles triIdx tri opIdx op st = .error e) : e = .popBackEmpty := by
  simp only [growAndCommit] at h
  split at h
  · rename_i e' hsearch
    simp only [Except.error.injEq] at h
    subst h
    exact (searchLinkedTriangles_fuel op triangles _ triIdx _ (Nat.lt_succ_self _) htri).1 _
      hsearch
  · split at h
    · split at h
      · rename_i e' hrem
        simp only [Except.error.injEq] at h
        subst h
        exact removeCommitted_fault hrem
      · simp at h
    · simp at h

theorem opLoop_fault (triangles : List (Triangle K)) (triIdx : Nat) (tri : Triangle K)
    (htri : triIdx < triangles.length) (ops : List (Nat × OperationBase K)) :
    ∀ (st : AnalysisState K) (e : Fault), opLoop triangles triIdx tri ops st = .error e →
      e = .popBackEmpty := by
  induction ops with
  | nil => intro st e h; simp [opLoop] at h
  | cons o rest ih =>
    obtain ⟨opIdx, op⟩ := o
    intro st e h
    simp only [opLoop] at h
    split at h
    · exact growAndCommit_fault triangles triIdx tri opIdx op st e htri h
    · exact ih st e h

/-- The only fault `AffordanceAnalysis` can end in is `pop_back` on an empty
vector: the fuel handed to `searchLinkedTriangles` never runs out and no
triangle index is out of range. -/
theorem AffordanceAnalysis_fault (triangles : List (Triangle K))
    (opVec : List (OperationBase K)) (e : Fault)
    (h : AffordanceAnalysis triangles opVec = .error e) : e = .popBackEmpty := by
  rw [AffordanceAnalysis_eq] at h
  split at h
  · simp at h
  · rename_i e' hrun
    simp only [Except.error.injEq] at h
    subst h
    refine (forEach_safe (fun _ : AnalysisState K => True) (fun e => e = Fault.popBackEmpty)
      (seedStep triangles opVec) triangles.enum ?_ _ trivial).1 _ hrun
    intro s seed hseed _
    refine ⟨?_, fun _ _ => trivial⟩
    intro e he
    simp only [seedStep] at he
    split at he
    · exact opLoop_fault triangles seed.1 seed.2 (List.fst_lt_of_mem_enum hseed) _ s e he
    · simp at he

theorem growAndCommit_allQualify (triangles : List (Triangle K))
    (opVec : List (OperationBase K)) (triIdx : Nat) (tri : Triangle K) (opIdx : Nat)
    (op : OperationBase K) (st st' : AnalysisState K)
    (htri : triangles[triIdx]? = some tri) (hop : opVec[opIdx]? = some op)
    (hreq : op.requirement tri.normal = true) (hst : AllQualify triangles opVec st)
    (h : growAndCommit triangles triIdx tri opIdx op st = .ok st') :
    AllQualify triangles opVec st' := by
  simp only [growAndCommit] at h
  split at h
  · simp at h
  · rename_i grown hsearch
    have hgrown : ∀ i ∈ grown.listPotential, Qualifies op triangles i := by
      refine searchLinkedTriangles_listPotential op triangles (Qualifies op triangles)
        (fun _ hi => hi) _ _ _ _ ?_ hsearch
      intro i hi
      rcases List.mem_append.1 hi with hi | hi
      · exact (hst opIdx op hop).1 i hi
      · have hi' : i = triIdx := by simpa using hi
        subst hi'
        exact ⟨tri, htri, hreq⟩
    split at h
    · split at h
      · simp at h
      · rename_i unset _
        simp only [Except.ok.injEq] at h
        subst h
        intro k op' hk
        refine ⟨?_, ?_⟩
        · intro i hi
          rcases mem_getD_set hi with ⟨_, hmem⟩ | hmem
          · simp at hmem
          · exact (hst k op' hk).1 i hmem
        · intro aff haff i hi
          rcases mem_getD_set haff with ⟨hkeq, hmem⟩ | hmem
          · subst hkeq
            have hopeq : op' = op := by
              rw [hop] at hk
              exact (Option.some.inj hk).symm
            subst hopeq
            rcases List.mem_append.1 hmem with hold | hnew
            · exact (hst k op' hk).2 aff hold i hi
            · have haff' : aff = ⟨grown.listPotential⟩ := by simpa using hnew
              subst haff'
              exact hgrown i hi
          · exact (hst k op' hk).2 aff hmem i hi
    · simp only [Except.ok.injEq] at h
      subst h
      intro k op' hk
      refine ⟨?_, (hst k op' hk).2⟩
      intro i hi
      rcases mem_getD_set hi with ⟨hkeq, hmem⟩ | hmem
      · subst hkeq
        have hopeq : op' = op := by
          rw [hop] at hk
          exact (Option.some.inj hk).symm
        subst hopeq
        exact hgrown i hmem
      · exact (hst k op' hk).1 i hmem

theorem growAndCommit_onlyFirstBucket (triangles : List (Triangle K)) (triIdx : Nat)
    (tri : Triangle K) (op : OperationBase K) (st st' : AnalysisState K)
    (hst : OnlyFirstBucket st)
    (h : growAndCommit triangles triIdx tri 0 op st = .ok st') : OnlyFirstBucket st' := by
  obtain ⟨b, hb⟩ := hst
  simp only [growAndCommit] at h
  split at h
  · simp at h
  · split at h
    · split at h
      · simp at h
      · simp only [Except.ok.injEq] at h
        subst h
        unfold OnlyFirstBucket
        simp only [hb]
        exact ⟨_, rfl⟩
    · simp only [Except.ok.injEq] at h
      subst h
      exact ⟨b, hb⟩

/-- When the first of two operations accepts every normal of the mesh, the
second bucket of the result is empty. -/
theorem first_match_wins (triangles : List (Triangle K)) (P Q : OperationBase K)
    (hP : ∀ t ∈ triangles, P.requirement t.normal = true)
    (res : List (List Affordance)) (h : AffordanceAnalysis triangles [P, Q] = .ok res) :
    ∃ b, res = [b, []] := by
  rw [AffordanceAnalysis_eq] at h
  split at h
  · rename_i st hrun
    simp only [Except.ok.injEq] at h
    subst h
    refine forEach_invariant OnlyFirstBucket _ _ ?_ _ _ ?_ hrun
    · intro s seed s' hseed hs hstep
      have hreq := hP seed.2 (List.snd_mem_of_mem_enum hseed)
      simp only [seedStep, List.enum, List.enumFrom, opLoop, hreq, if_true] at hstep
      split at hstep
      · exact growAndCommit_onlyFirstBucket triangles _ _ P s s' hs hstep
      · simp only [Except.ok.injEq] at hstep
        exact hstep ▸ hs
    · exact ⟨[], rfl⟩
  · simp at h

end AnalysisLemmas

/-! ## Pools, accumulator and congruence -/

theorem PoolShrunk.refl (p : List Nat) : PoolShrunk p p :=
  ⟨Nat.le_refl _, List.Subset.refl _, fun _ => List.Sublist.refl _⟩

theorem PoolShrunk.trans {p q r : List Nat} (h1 : PoolShrunk p q) (h2 : PoolShrunk q r) :
    PoolShrunk p r := by
  refine ⟨Nat.le_trans h2.1 h1.1, fun x hx => h1.2.1 (h2.2.1 hx), ?_⟩
  intro hp
  have hq := h1.2.2 hp
  exact (h2.2.2 (hp.sublist hq)).trans hq

theorem dropLast_append_of_length_one (l m : List Nat) (h : m.length = 1) :
    (l ++ m).dropLast = l := by
  match m, h with
  | [y], _ => simp

theorem stdRemove_subset (v : List Nat) (value : Nat) : stdRemove v value ⊆ v := by
  intro x hx
  simp only [stdRemove, List.mem_append] at hx
  rcases hx with hx | hx
  · exact List.mem_of_mem_filter hx
  · exact List.mem_of_mem_drop hx

theorem popBack_eq {v w : List Nat} (h : popBack v = .ok w) : w = v.dropLast := by
  cases v with
  | nil => simp [popBack] at h
  | cons a as =>
    simp only [popBack, Except.ok.injEq] at h
    exact h.symm

/-- On a pool without duplicates the idiom erases the value when it is there,
and drops the last element when it is not. -/
theorem removeValue_nodup {v w : List Nat} {value : Nat} (hv : v.Nodup)
    (h : removeValue v value = .ok w) :
    (value ∈ v → w = v.filter (fun e => decide (e ≠ value))) ∧ (value ∉ v → w = v.dropLast) := by
  have hw := popBack_eq h
  constructor
  · intro hmem
    have hcount : v.count value = 1 := List.count_eq_one_of_mem hv hmem
    have hlen : (v.filter (fun e => decide (e ≠ value))).length + 1 = v.length := by
      have h1 := List.length_eq_countP_add_countP (fun e => decide (e = value)) v
      have h2 : List.countP (fun e => decide (e = value)) v = 1 := by
        rw [← hcount, List.count]
        congr 1
      rw [List.countP_eq_length_filter (fun a => decide ¬(fun e => decide (e = value)) a = true)] at h1
      have h3 : (List.filter (fun a => decide ¬(fun e => decide (e = value)) a = true) v)
          = v.filter (fun e => decide (e ≠ value)) := by
        congr 1
        funext e
        simp
      rw [h3] at h1
      omega
    rw [hw]
    unfold stdRemove
    apply dropLast_append_of_length_one
    simp only [List.length_drop]
    omega
  · intro hmem
    have hf : v.filter (fun e => decide (e ≠ value)) = v := by
      rw [List.filter_eq_self]
      intro a ha
      simp only [ne_eq, decide_eq_true_eq]
      intro hav
      exact hmem (hav ▸ ha)
    rw [hw]
    simp only [stdRemove, hf, List.drop_length, List.append_nil]

theorem removeValue_shrunk {v w : List Nat} {value : Nat} (h : removeValue v value = .ok w) :
    PoolShrunk v w := by
  refine ⟨?_, ?_, ?_⟩
  · have := removeValue_length h
    omega
  · have hw := popBack_eq h
    rw [hw]
    intro x hx
    exact stdRemove_subset v value (List.dropLast_subset _ hx)
  · intro hv
    have hn := removeValue_nodup hv h
    by_cases hmem : value ∈ v
    · rw [hn.1 hmem]
      exact List.filter_sublist _
    · rw [hn.2 hmem]
      exact List.dropLast_sublist _

theorem forEach_congr_invariant {σ α : Type} (P : σ → Prop)
    (body body' : σ → α → Except Fault σ) (xs : List α)
    (hstep : ∀ s a, a ∈ xs → P s →
      body s a = body' s a ∧ ∀ s', body s a = .ok s' → P s') :
    ∀ s, P s → forEach body xs s = forEach body' xs s := by
  induction xs with
  | nil => intro s _; rfl
  | cons a as ih =>
    intro s hs
    have ha := hstep s a (List.mem_cons_self _ _) hs
    simp only [forEach, ← ha.1]
    cases hb : body s a with
    | error e => rfl
    | ok s1 =>
      exact ih (fun t b hb' => hstep t b (List.mem_cons_of_mem _ hb')) s1 (ha.2 s1 hb)

section PoolLemmas

variable {K : Type} [LinearOrderedField K]

theorem searchLinkedTriangles_succ (refOp : OperationBase K) (allTris : List (Triangle K))
    (fuel refTriIdx : Nat) (st : SearchState K) :
    searchLinkedTriangles refOp allTris (fuel + 1) refTriIdx st
      = searchBody (searchLinkedTriangles refOp allTris fuel) refOp allTris refTriIdx st := rfl

/-- Whatever pool `searchLinkedTriangles` returns is a shrunk form of the pool
it received, and strictly shorter. -/
theorem searchLinkedTriangles_pool (refOp : OperationBase K) (allTris : List (Triangle K)) :
    ∀ (fuel refTriIdx : Nat) (st st' : SearchState K),
      searchLinkedTriangles refOp allTris fuel refTriIdx st = .ok st' →
      st'.searchableTris.length < st.searchableTris.length ∧
        PoolShrunk st.searchableTris st'.searchableTris := by
  intro fuel
  induction fuel with
  | zero => intro r st st' h; simp [searchLinkedTriangles] at h
  | succ fuel ih =>
    intro r st st' h
    simp only [searchLinkedTriangles] at h
    cases hr : allTris[r]? with
    | none => simp [hr] at h
    | some refTri =>
      simp only [hr] at h
      cases hp : removeValue st.searchableTris r with
      | error e => simp [hp] at h
      | ok pool =>
        simp only [hp] at h
        have hpl := removeValue_length hp
        have hps := removeValue_shrunk hp
        have key : PoolShrunk pool st'.searchableTris := by
          refine forEach_invariant (fun s : SearchState K => PoolShrunk pool s.searchableTris)
            _ _ ?_ _ _ ?_ h
          swap
          · exact PoolShrunk.refl pool
          intro s cand s' _ hs hstep
          simp only [candidateStep] at hstep
          split at hstep
          · refine forEach_invariant
              (fun s : SearchState K => PoolShrunk pool s.searchableTris) _ _ ?_ _ _ hs hstep
            intro t v t' _ ht hv
            simp only [vertexStep] at hv
            split at hv
            · split at hv
              · split at hv
                · exact ht.trans (ih _ _ _ hv).2
                · simp only [Except.ok.injEq] at hv
                  exact hv ▸ ht
              · cases hq : removeValue t.searchableTris cand.1 with
                | error e => simp [hq] at hv
                | ok q =>
                  simp only [hq, Except.ok.injEq] at hv
                  subst hv
                  exact ht.trans (removeValue_shrunk hq)
            · simp only [Except.ok.injEq] at hv
              exact hv ▸ ht
          · simp only [Except.ok.injEq] at hstep
            exact hstep ▸ hs
        refine ⟨?_, hps.trans key⟩
        have := key.1
        omega

/-- With more fuel than the pool has elements the fuel does not run out. -/
theorem searchLinkedTriangles_enough_fuel (refOp : OperationBase K)
    (allTris : List (Triangle K)) (fuel refTriIdx : Nat) (st : SearchState K)
    (hfuel : st.searchableTris.length < fuel) :
    searchLinkedTriangles refOp allTris fuel refTriIdx st ≠ .error .outOfFuel := by
  by_cases hr : refTriIdx < allTris.length
  · intro h
    have := (searchLinkedTriangles_fuel refOp allTris fuel refTriIdx st hfuel hr).1 _ h
    cases this
  · cases fuel with
    | zero => omega
    | succ fuel =>
      have hnone : allTris[refTriIdx]? = none := List.getElem?_eq_none (Nat.le_of_not_lt hr)
      simp [searchLinkedTriangles, hnone]

/-- The body of `searchLinkedTriangles` uses the recursive call only on pools
that are strictly shorter than the pool at entry. -/
theorem searchBody_recursion_on_shorter_pools
    (recurse recurse' : Nat → SearchState K → Except Fault (SearchState K))
    (refOp : OperationBase K) (allTris : List (Triangle K)) (refTriIdx : Nat)
    (st : SearchState K)
    (hshrink : ∀ i s s', recurse i s = .ok s' →
      s'.searchableTris.length ≤ s.searchableTris.length)
    (hagree : ∀ i s, s.searchableTris.length < st.searchableTris.length →
      recurse i s = recurse' i s) :
    searchBody recurse refOp allTris refTriIdx st
      = searchBody recurse' refOp allTris refTriIdx st := by
  simp only [searchBody]
  cases hr : allTris[refTriIdx]? with
  | none => rfl
  | some refTri =>
    simp only []
    cases hp : removeValue st.searchableTris refTriIdx with
    | error e => rfl
    | ok pool =>
      simp only []
      have hpl := removeValue_length hp
      refine forEach_congr_invariant
        (fun s : SearchState K => s.searchableTris.length ≤ pool.length) _ _ _ ?_ _
        (Nat.le_refl _)
      intro s cand _ hs
      simp only [candidateStep]
      split
      · have hinner := forEach_congr_invariant
          (fun s : SearchState K => s.searchableTris.length ≤ pool.length)
          (vertexStep recurse refOp refTri cand.1 cand.2)
          (vertexStep recurse' refOp refTri cand.1 cand.2) [0, 1, 2] ?_ s hs
        · refine ⟨hinner, ?_⟩
          intro s' h'
          refine forEach_invariant
            (fun s : SearchState K => s.searchableTris.length ≤ pool.length) _ _ ?_ _ _ hs h'
          intro t v t' _ ht hv
          simp only [vertexStep] at hv
          split at hv
          · split at hv
            · split at hv
              · have := hshrink _ _ _ hv
                simp only at this
                omega
              · simp only [Except.ok.injEq] at hv
                exact hv ▸ ht
            · cases hq : removeValue t.searchableTris cand.1 with
              | error e => simp [hq] at hv
              | ok q =>
                have hql := removeValue_length hq
                simp only [hq, Except.ok.injEq] at hv
                subst hv
                simp only
                omega
          · simp only [Except.ok.injEq] at hv
            exact hv ▸ ht
        · intro t v _ ht
          simp only [vertexStep]
          split
          · split
            · split
              · have hag := hagree cand.1
                  { t with area := t.area + cand.2.area
                           listPotential := t.listPotential ++ [cand.1] }
                  (by simp only; omega)
                refine ⟨hag, ?_⟩
                intro s' h'
                have := hshrink _ _ _ h'
                simp only at this
                omega
              · refine ⟨rfl, ?_⟩
                intro s' h'
                simp only [Except.ok.injEq] at h'
                exact h' ▸ ht
            · cases hq : removeValue t.searchableTris cand.1 with
              | error e => exact ⟨rfl, by simp⟩
              | ok q =>
                have hql := removeValue_length hq
                refine ⟨rfl, ?_⟩
                intro s' h'
                simp only [Except.ok.injEq] at h'
                subst h'
                simp only
                omega
          · refine ⟨rfl, ?_⟩
            intro s' h'
            simp only [Except.ok.injEq] at h'
            exact h' ▸ ht
      · refine ⟨rfl, ?_⟩
        intro s' h'
        simp only [Except.ok.injEq] at h'
        exact h' ▸ hs

end PoolLemmas

section AccumulatorLemmas

variable {K : Type} [LinearOrderedField K]

theorem regionArea_nil (triangles : List (Triangle K)) : regionArea triangles [] = 0 := by
  simp [regionArea]

theorem regionArea_append (triangles : List (Triangle K)) (a b : List Nat) :
    regionArea triangles (a ++ b) = regionArea triangles a + regionArea triangles b := by
  simp [regionArea, List.map_append, List.sum_append]

theorem regionArea_singleton (triangles : List (Triangle K)) (i : Nat) (t : Triangle K)
    (h : triangles[i]? = some t) : regionArea triangles [i] = t.area := by
  simp [regionArea, h]

/-- The accumulator grows by the areas of the appended indices. -/
theorem searchLinkedTriangles_area (refOp : OperationBase K) (allTris : List (Triangle K)) :
    ∀ (fuel refTriIdx : Nat) (st st' : SearchState K),
      searchLinkedTriangles refOp allTris fuel refTriIdx st = .ok st' →
      ∃ appended, st'.listPotential = st.listPotential ++ appended ∧
        st'.area = st.area + regionArea allTris appended := by
  intro fuel
  induction fuel with
  | zero => intro r st st' h; simp [searchLinkedTriangles] at h
  | succ fuel ih =>
    intro r st st' h
    simp only [searchLinkedTriangles] at h
    cases hr : allTris[r]? with
    | none => simp [hr] at h
    | some refTri =>
      simp only [hr] at h
      cases hp : removeValue st.searchableTris r with
      | error e => simp [hp] at h
      | ok pool =>
        simp only [hp] at h
        refine forEach_invariant (fun s : SearchState K => ∃ appended,
          s.listPotential = st.listPotential ++ appended ∧
            s.area = st.area + regionArea allTris appended) _ _ ?_ _ _ ?_ h
        swap
        · exact ⟨[], by simp, by simp [regionArea_nil]⟩
        intro s cand s' hcand hs hstep
        simp only [candidateStep] at hstep
        split at hstep
        · refine forEach_invariant (fun s : SearchState K => ∃ appended,
            s.listPotential = st.listPotential ++ appended ∧
              s.area = st.area + regionArea allTris appended) _ _ ?_ _ _ hs hstep
          intro t v t' _ ht hv
          simp only [vertexStep] at hv
          split at hv
          · split at hv
            · split at hv
              · obtain ⟨app, hl, ha⟩ := ht
                obtain ⟨app2, hl2, ha2⟩ := ih _ _ _ hv
                refine ⟨app ++ [cand.1] ++ app2, ?_, ?_⟩
                · simp only [hl2, hl, List.append_assoc]
                · simp only [ha2, ha, regionArea_append,
                    regionArea_singleton allTris cand.1 cand.2
                      (List.mem_enum_iff_getElem?.1 hcand)]
                  ring
              · simp only [Except.ok.injEq] at hv
                exact hv ▸ ht
            · cases hq : removeValue t.searchableTris cand.1 with
              | error e => simp [hq] at hv
              | ok q =>
                simp only [hq, Except.ok.injEq] at hv
                subst hv
                exact ht
          · simp only [Except.ok.injEq] at hv
            exact hv ▸ ht
        · simp only [Except.ok.injEq] at hstep
          exact hstep ▸ hs

/-- The search reads its operation only through `requirement`. -/
theorem searchLinkedTriangles_congr (op op' : OperationBase K) (allTris : List (Triangle K))
    (h : op.requirement = op'.requirement) :
    ∀ fuel, searchLinkedTriangles op allTris fuel = searchLinkedTriangles op' allTris fuel := by
  intro fuel
  induction fuel with
  | zero => rfl
  | succ fuel ih =>
    funext r st
    have hv : ∀ refTri, candidateStep (searchLinkedTriangles op allTris fuel) op refTri
        = candidateStep (searchLinkedTriangles op' allTris fuel) op' refTri := by
      intro refTri
      funext s cand
      have : vertexStep (searchLinkedTriangles op allTris fuel) op refTri cand.1 cand.2
          = vertexStep (searchLinkedTriangles op' allTris fuel) op' refTri cand.1 cand.2 := by
        funext t v
        simp only [vertexStep, h, ih]
      simp only [candidateStep, this]
    simp only [searchLinkedTriangles, hv]

theorem growAndCommit_congr (triangles : List (Triangle K)) (triIdx : Nat) (tri : Triangle K)
    (opIdx : Nat) (op op' : OperationBase K) (st : AnalysisState K)
    (h : op.requirement = op'.requirement) (hm : op.minArea_ = op'.minArea_) :
    growAndCommit triangles triIdx tri opIdx op st
      = growAndCommit triangles triIdx tri opIdx op' st := by
  simp only [growAndCommit, searchLinkedTriangles_congr op op' triangles h, hm]

theorem opLoop_congr (triangles : List (Triangle K)) (triIdx : Nat) (tri : Triangle K)
    (opVec opVec' : List (OperationBase K))
    (h : List.Forall₂ (fun a b => a.requirement = b.requirement ∧ a.minArea_ = b.minArea_)
      opVec opVec') :
    ∀ (n : Nat) (st : AnalysisState K),
      opLoop triangles triIdx tri (opVec.enumFrom n) st
        = opLoop triangles triIdx tri (opVec'.enumFrom n) st := by
  induction h with
  | nil => intro n st; rfl
  | cons hab _ ih =>
    intro n st
    simp only [List.enumFrom, opLoop, hab.1, ih,
      growAndCommit_congr triangles triIdx tri n _ _ st hab.1 hab.2]

theorem AffordanceAnalysis_congr (triangles : List (Triangle K))
    (opVec opVec' : List (OperationBase K))
    (h : List.Forall₂ (fun a b => a.requirement = b.requirement ∧ a.minArea_ = b.minArea_)
      opVec opVec') :
    AffordanceAnalysis triangles opVec = AffordanceAnalysis triangles opVec' := by
  have hseed : seedStep triangles opVec = seedStep triangles opVec' := by
    funext st seed
    simp only [seedStep, List.enum, opLoop_congr triangles seed.1 seed.2 opVec opVec' h]
  simp only [AffordanceAnalysis, hseed, h.length_eq]

end AccumulatorLemmas

/-! ## Swapping two operations -/

theorem forEach_congr_mem {σ α : Type} (body body' : σ → α → Except Fault σ) (xs : List α)
    (h : ∀ s a, a ∈ xs → body s a = body' s a) (s : σ) :
    forEach body xs s = forEach body' xs s :=
  forEach_congr_invariant (fun _ => True) body body' xs
    (fun s a ha _ => ⟨h s a ha, fun _ _ => trivial⟩) s trivial

section SwapLemmas

variable {K : Type} [LinearOrderedField K]

/-- Two operations whose `requirement` agrees on the normals of the mesh drive
the same search. -/
theorem searchLinkedTriangles_congr_on (op op' : OperationBase K) (allTris : List (Triangle K))
    (h : ∀ t ∈ allTris, op.requirement t.normal = op'.requirement t.normal) :
    ∀ fuel, searchLinkedTriangles op allTris fuel = searchLinkedTriangles op' allTris fuel := by
  intro fuel
  induction fuel with
  | zero => rfl
  | succ fuel ih =>
    funext r st
    simp only [searchLinkedTriangles]
    cases allTris[r]? with
    | none => rfl
    | some refTri =>
      simp only []
      cases removeValue st.searchableTris r with
      | error e => rfl
      | ok pool =>
        simp only []
        refine forEach_congr_mem _ _ _ ?_ _
        intro s cand hcand
        simp only [candidateStep]
        split
        · refine forEach_congr_mem _ _ _ ?_ _
          intro t v _
          simp only [vertexStep, h cand.2 (List.snd_mem_of_mem_enum hcand), ih]
        · rfl

theorem growAndCommit_congr_on (triangles : List (Triangle K)) (triIdx : Nat) (tri : Triangle K)
    (opIdx : Nat) (op op' : OperationBase K) (st : AnalysisState K)
    (h : ∀ t ∈ triangles, op.requirement t.normal = op'.requirement t.normal)
    (hm : op.minArea_ = op'.minArea_) :
    growAndCommit triangles triIdx tri opIdx op st
      = growAndCommit triangles triIdx tri opIdx op' st := by
  simp only [growAndCommit, searchLinkedTriangles_congr_on op op' triangles h, hm]

/-- When both operations accept every normal of the mesh and have the same
`minArea_`, the analysis has the same outcome for both orders. -/
theorem swap_same_minArea (triangles : List (Triangle K)) (P Q : OperationBase K)
    (hP : ∀ t ∈ triangles, P.requirement t.normal = true)
    (hQ : ∀ t ∈ triangles, Q.requirement t.normal = true)
    (hm : P.minArea_ = Q.minArea_) :
    AffordanceAnalysis triangles [P, Q] = AffordanceAnalysis triangles [Q, P] := by
  have hPQ : ∀ t ∈ triangles, P.requirement t.normal = Q.requirement t.normal :=
    fun t ht => (hP t ht).trans (hQ t ht).symm
  have hseed : ∀ s seed, seed ∈ triangles.enum →
      seedStep triangles [P, Q] s seed = seedStep triangles [Q, P] s seed := by
    intro s seed hseed
    have hmem := List.snd_mem_of_mem_enum hseed
    simp only [seedStep, List.enum, List.enumFrom, opLoop, hP seed.2 hmem, hQ seed.2 hmem,
      if_true, growAndCommit_congr_on triangles seed.1 seed.2 0 P Q s hPQ hm]
  simp only [AffordanceAnalysis, List.length_cons, List.length_nil,
    forEach_congr_mem _ _ _ hseed]

end SwapLemmas

/-! ## Runs on the sample meshes -/

theorem flatSquare_run :
    AffordanceAnalysis flatSquare [defaultSupport] = .ok [[⟨[0, 1]⟩]] := by decide!

theorem flatSquare_run_two :
    AffordanceAnalysis flatSquare [defaultSupport, wideSupport] = .ok [[⟨[0, 1]⟩], []] := by
  decide!

theorem flatSquare_all_defaultSupport :
    ∀ t ∈ flatSquare, defaultSupport.requirement t.normal = true := by decide!

theorem flatSquare_all_wideSupport :
    ∀ t ∈ flatSquare, wideSupport.requirement t.normal = true := by decide!

theorem flatSquare_search :
    searchLinkedTriangles defaultSupport flatSquare 3 0 ⟨[0], [0, 1], 1 / 2⟩
      = .ok ⟨[0, 1], [], 1⟩ := by decide!

theorem foldedSquare_same_except_margin :
    List.Forall₂ SameExceptNeighbourMargin [defaultSupport] [strictNeighbourSupport] :=
  List.Forall₂.cons rfl List.Forall₂.nil

/-! ## Claims -/

section Claims

variable {K : Type} [LinearOrderedField K]

/-- C1 (fails on the code): the area compared with `minArea_` is not the area of
the committed region.  On two isolated horizontal triangles of area `1` and
`0.01` the analysis with the default Support operation commits the region `[1]`,
whose area `0.01` is not above `minArea_ = 0.05`: `totArea` still holds the area
of the region committed before. -/
theorem C1_committed_region_below_minArea :
    AffordanceAnalysis twoIslands [defaultSupport] = .ok [[⟨[0]⟩, ⟨[1]⟩]] ∧
      regionArea twoIslands [1] = 1 / 100 ∧
      ¬ (regionArea twoIslands [1] > defaultSupport.minArea_) := by decide!

/-- C2 (fails on the code): a triangle index can occur in two committed
Affordances.  On `sharedCorner` with `[halfSupport, wideSupport]` triangle `0` is
committed in bucket `1` (region `[1, 0]`) and again in bucket `0` (region
`[0, 2]`): the pending list of operation `0` kept it from the first seed. -/
theorem C2_triangle_in_two_affordances :
    AffordanceAnalysis sharedCorner [halfSupport, wideSupport]
      = .ok [[⟨[0, 2]⟩], [⟨[1, 0]⟩]] := by decide!

/-- C3: every triangle index contained in an Affordance of bucket `k` of the
result of `AffordanceAnalysis` is the index of a triangle whose normal passes
the `requirement` of the `k`-th operation of the input list. -/
theorem C3_committed_triangles_pass_requirement (triangles : List (Triangle K))
    (opVec : List (OperationBase K)) (result : List (List Affordance))
    (h : AffordanceAnalysis triangles opVec = .ok result)
    (k : Nat) (op : OperationBase K) (hk : opVec[k]? = some op)
    (aff : Affordance) (haff : aff ∈ result.getD k [])
    (i : Nat) (hi : i ∈ aff.indices_) :
    ∃ t, triangles[i]? = some t ∧ op.requirement t.normal = true := by
  rw [AffordanceAnalysis_eq] at h
  split at h
  · rename_i st hrun
    simp only [Except.ok.injEq] at h
    subst h
    have hinv : AllQualify triangles opVec st := by
      refine analysis_invariant (AllQualify triangles opVec) triangles opVec ?_ ?_ st hrun
      · intro k op _
        constructor
        · intro i hi
          simp [initialState, List.getElem?_replicate] at hi
          split at hi <;> simp at hi
        · intro aff haff
          simp [initialState, List.getElem?_replicate] at haff
          split at haff <;> simp at haff
      · intro triIdx tri opIdx op s s' htri hop hreq hs hg
        exact growAndCommit_allQualify triangles opVec triIdx tri opIdx op s s' htri hop hreq hs hg
    exact (hinv k op hk).2 aff haff i hi
  · simp at h

/-- Witness of C3: triangle `1` of the flat square, committed under Support. -/
theorem C3_committed_triangles_pass_requirement_witness :
    AffordanceAnalysis flatSquare [defaultSupport] = .ok [[⟨[0, 1]⟩]] ∧
      ∃ t, flatSquare[1]? = some t ∧ defaultSupport.requirement t.normal = true :=
  ⟨flatSquare_run,
    C3_committed_triangles_pass_requirement flatSquare [defaultSupport] [[⟨[0, 1]⟩]]
      flatSquare_run 0 defaultSupport rfl ⟨[0, 1]⟩ (by simp) 1 (by simp)⟩

/-- Counterexample to C4 as stated: a triangle claimed under one order need not
be claimed after the swap.  The one triangle of `oneTile` passes both
`defaultSupport` (minimum area `0.05`) and `highThresholdSupport` (minimum area
`100`); with `[defaultSupport, highThresholdSupport]` it is committed in the
first bucket, with the swapped list no bucket holds it. -/
theorem C4_swap_loses_claimed_triangle :
    (∀ t ∈ oneTile, defaultSupport.requirement t.normal = true) ∧
    (∀ t ∈ oneTile, highThresholdSupport.requirement t.normal = true) ∧
    AffordanceAnalysis oneTile [defaultSupport, highThresholdSupport] = .ok [[⟨[0]⟩], []] ∧
    AffordanceAnalysis oneTile [highThresholdSupport, defaultSupport] = .ok [[], []] := by
  decide!

/-- C4, amended: first match wins.  When every triangle normal of the mesh
passes the `requirement` of both `P` and `Q`, the result for `[P, Q]` has two
buckets of which the second (the bucket of `Q`) is empty, and the result for
`[Q, P]` has two buckets of which the second (the bucket of `P`) is empty,
whatever the areas and thresholds; and when `P` and `Q` have the same
`minArea_` the two runs have the same outcome, so that the Affordances in the
bucket of `P` under `[P, Q]` are those in the bucket of `Q` under `[Q, P]`: a
triangle claimed under one order is claimed by the bucket of the other
operation after the swap. -/
theorem C4_first_match_wins (triangles : List (Triangle K)) (P Q : OperationBase K)
    (hP : ∀ t ∈ triangles, P.requirement t.normal = true)
    (hQ : ∀ t ∈ triangles, Q.requirement t.normal = true) :
    (∀ res, AffordanceAnalysis triangles [P, Q] = .ok res → ∃ bucketP, res = [bucketP, []]) ∧
    (∀ res, AffordanceAnalysis triangles [Q, P] = .ok res → ∃ bucketQ, res = [bucketQ, []]) ∧
    (P.minArea_ = Q.minArea_ →
      AffordanceAnalysis triangles [P, Q] = AffordanceAnalysis triangles [Q, P]) :=
  ⟨fun res h => first_match_wins triangles P Q hP res h,
   fun res h => first_match_wins triangles Q P hQ res h,
   fun hm => swap_same_minArea triangles P Q hP hQ hm⟩

/-- Witness of C4, amended: the flat square passes both `defaultSupport` and
`wideSupport`, which have the same minimum area. -/
theorem C4_first_match_wins_witness :
    (∀ t ∈ flatSquare, defaultSupport.requirement t.normal = true) ∧
    (∀ t ∈ flatSquare, wideSupport.requirement t.normal = true) ∧
    AffordanceAnalysis flatSquare [defaultSupport, wideSupport] = .ok [[⟨[0, 1]⟩], []] ∧
    (∃ bucketP, [[(⟨[0, 1]⟩ : Affordance)], []] = [bucketP, []]) ∧
    defaultSupport.minArea_ = wideSupport.minArea_ ∧
    AffordanceAnalysis flatSquare [defaultSupport, wideSupport]
      = AffordanceAnalysis flatSquare [wideSupport, defaultSupport] :=
  ⟨flatSquare_all_defaultSupport, flatSquare_all_wideSupport, flatSquare_run_two,
    (C4_first_match_wins flatSquare defaultSupport wideSupport flatSquare_all_defaultSupport
      flatSquare_all_wideSupport).1 _ flatSquare_run_two,
    rfl,
    (C4_first_match_wins flatSquare defaultSupport wideSupport flatSquare_all_defaultSupport
      flatSquare_all_wideSupport).2.2 rfl⟩

/-- C5 (fails on the code): a mesh whose total area is below `minArea_` can
still get an Affordance.  `smallPatch` has total area `0.045 < 0.05`; triangle
`1` shares two vertex ids with triangle `0`, is appended twice and its area is
added twice, so that `0.07` is compared with `minArea_` and the region
`[0, 1, 1]` is committed. -/
theorem C5_small_mesh_committed :
    AffordanceAnalysis smallPatch [defaultSupport] = .ok [[⟨[0, 1, 1]⟩]] ∧
      regionArea smallPatch [0, 1, 2] = 9 / 200 ∧
      regionArea smallPatch [0, 1, 2] < defaultSupport.minArea_ := by decide!

/-- C6 (fails on the code): for the flat square whose second triangle is written
`(2, 3, 0)` the candidate `1` matches the reference `(0, 1, 2)` at `vertIdx = 0`
and again at `vertIdx = 2`; the second recursive call finds the pool empty and
calls `pop_back` on it. -/
theorem C6_rotated_square_faults :
    AffordanceAnalysis flatSquareRotated [defaultSupport] = .error .popBackEmpty := by decide!

/-- C7: for the normal `(1, 0, 0)` the `requirement` of Support with margin `0.3`
is false and that of Lean with margin `0.3` is true, and for a mesh of one
triangle with that normal and an area above the `minArea_` of Lean the analysis
with `[Support, Lean]` returns an empty Support bucket and a Lean bucket that
holds exactly the Affordance `[0]`. -/
theorem C7_vertical_wall (fclTri : FclTriangle)
    (area nbTriMarginS minAreaS nbTriMarginL minAreaL : K) (nameS nameL : String)
    (harea : area > minAreaL) :
    (SupportOperation (3 / 10) nbTriMarginS minAreaS nameS).requirement ⟨1, 0, 0⟩ = false ∧
    (LeanOperation (3 / 10) nbTriMarginL minAreaL nameL).requirement ⟨1, 0, 0⟩ = true ∧
    AffordanceAnalysis [⟨fclTri, ⟨1, 0, 0⟩, area⟩]
        [SupportOperation (3 / 10) nbTriMarginS minAreaS nameS,
         LeanOperation (3 / 10) nbTriMarginL minAreaL nameL]
      = .ok [[], [⟨[0]⟩]] := by
  have hS : (SupportOperation (3 / 10) nbTriMarginS minAreaS nameS).requirement
      ⟨1, 0, 0⟩ = false := by
    simp only [SupportOperation, Vec3.squaredNorm, Vec3.sub_x, Vec3.sub_y, Vec3.sub_z]
    norm_num
  have hL : (LeanOperation (3 / 10) nbTriMarginL minAreaL nameL).requirement
      ⟨1, 0, 0⟩ = true := by
    simp only [LeanOperation, Vec3.dot]
    norm_num
  refine ⟨hS, hL, ?_⟩
  simp [AffordanceAnalysis, forEach, seedStep, List.enum, List.enumFrom, opLoop, hS, hL,
    growAndCommit, searchLinkedTriangles, removeValue, stdRemove, popBack, candidateStep,
    removeCommitted, List.range, List.range.loop]
  have hm : (LeanOperation (3 / 10) nbTriMarginL minAreaL nameL).minArea_ = minAreaL := rfl
  rw [hm, if_pos harea]

/-- Witness of C7: a wall triangle of area `1` and the default thresholds. -/
theorem C7_vertical_wall_witness :
    (1 : ℚ) > 5 / 100 ∧
    AffordanceAnalysis [(⟨⟨0, 1, 2, 99⟩, ⟨1, 0, 0⟩, 1⟩ : Triangle ℚ)]
        [SupportOperation (3 / 10) (3 / 10) (5 / 100) "Support",
         LeanOperation (3 / 10) (3 / 10) (5 / 100) "Lean"]
      = .ok [[], [⟨[0]⟩]] :=
  ⟨by norm_num,
    (C7_vertical_wall ⟨0, 1, 2, 99⟩ (1 : ℚ) (3 / 10) (5 / 100) (3 / 10) (5 / 100)
      "Support" "Lean" (by norm_num)).2.2⟩

/-- C8 (fails on the code): the neighbouring-triangle margin of the operation
does not bound the merge.  The normals of the two triangles of `foldedSquare`
differ by `2/13` in squared length, more than the margin `0.1` of
`strictNeighbourSupport`, and both triangles end in one Affordance: the growth
step compares with the constant `marginRad = 0.3`. -/
theorem C8_merge_beyond_neighbour_margin :
    AffordanceAnalysis foldedSquare [strictNeighbourSupport] = .ok [[⟨[0, 1]⟩]] ∧
      ((⟨5 / 13, 0, 12 / 13⟩ : Vec3 ℚ) - up).sqrLength = 2 / 13 ∧
      ((⟨5 / 13, 0, 12 / 13⟩ : Vec3 ℚ) - up).sqrLength
        > strictNeighbourSupport.neighbouringTriangleMargin_ := by decide!

/-- Counterexample to C9 as stated: for the normal `(0, 0, 1)` and margin `0.6`
the `requirement` of Support45 holds (the squared distance `2 - sqrt 2` is below
`0.6`), but the distance is not below `0.6 ^ 2`. -/
theorem C9_distance_below_margin_squared_fails :
    ¬ ((Support45Operation Real.sqrt (3 / 5) (3 / 10) (5 / 100) "Support45").requirement
          ⟨0, 0, 1⟩ = true ↔
        euclideanDistance Real.sqrt (Support45Operation.axis45_ Real.sqrt)
          (Support45Operation.projectedNormal Real.sqrt ⟨0, 0, 1⟩) < (3 / 5) ^ 2) := by
  have h2 : Real.sqrt 2 * Real.sqrt 2 = 2 := Real.mul_self_sqrt (by norm_num)
  have hpos : 0 < Real.sqrt 2 := Real.sqrt_pos.2 (by norm_num)
  have hsq : (Support45Operation.axis45_ Real.sqrt
      - Support45Operation.projectedNormal Real.sqrt ⟨0, 0, 1⟩).squaredNorm
        = 2 - Real.sqrt 2 := by
    simp only [Support45Operation.axis45_, Support45Operation.projectedNormal, Vec3.squaredNorm,
      Vec3.sub_x, Vec3.sub_y, Vec3.sub_z]
    have h0 : Real.sqrt (0 * 0 + 0 * 0) = 0 := by norm_num
    rw [h0]
    field_simp
    nlinarith
  have hlo : 7 / 5 < Real.sqrt 2 := by nlinarith
  have hhi : Real.sqrt 2 < 3 / 2 := by nlinarith
  intro h
  have hreq : (Support45Operation Real.sqrt (3 / 5) (3 / 10) (5 / 100) "Support45").requirement
      ⟨0, 0, 1⟩ = true := by
    simp only [Support45Operation, decide_eq_true_eq, hsq]
    linarith
  have hd := h.1 hreq
  simp only [euclideanDistance, hsq] at hd
  rw [Real.sqrt_lt' (by norm_num)] at hd
  norm_num at hd
  linarith

/-- C9, amended: for a square root function `sqrt` (one with
`sqrt x * sqrt x = x` on the non-negative numbers), every margin and every
normal `n`, the `requirement` of Support45 holds exactly when the square of the
Euclidean distance between the axis point `(1/sqrt 2, 0, 1/sqrt 2)` and the
projected point `(sqrt (n_x^2 + n_y^2), 0, n_z)` is less than the margin. -/
theorem C9_support45_squared_distance_below_margin (sqrt : K → K)
    (hsqrt : ∀ x, 0 ≤ x → sqrt x * sqrt x = x)
    (margin nbTriMargin minArea : K) (affordanceName : String) (normal : Vec3 K) :
    (Support45Operation sqrt margin nbTriMargin minArea affordanceName).requirement normal = true ↔
      euclideanDistance sqrt (Support45Operation.axis45_ sqrt)
        (Support45Operation.projectedNormal sqrt normal) ^ 2 < margin := by
  simp only [Support45Operation, decide_eq_true_eq, euclideanDistance, pow_two]
  rw [hsqrt _ (Vec3.squaredNorm_nonneg _)]

/-- Witness of C9, amended: the real square root, margin `0.6`, normal `(0, 0, 1)`. -/
theorem C9_support45_squared_distance_below_margin_witness :
    (∀ x : ℝ, 0 ≤ x → Real.sqrt x * Real.sqrt x = x) ∧
    ((Support45Operation Real.sqrt (3 / 5) (3 / 10) (5 / 100) "Support45").requirement
        ⟨0, 0, 1⟩ = true ↔
      euclideanDistance Real.sqrt (Support45Operation.axis45_ Real.sqrt)
        (Support45Operation.projectedNormal Real.sqrt ⟨0, 0, 1⟩) ^ 2 < 3 / 5) :=
  ⟨fun _ hx => Real.mul_self_sqrt hx,
    C9_support45_squared_distance_below_margin Real.sqrt (fun _ hx => Real.mul_self_sqrt hx)
      (3 / 5) (3 / 10) (5 / 100) "Support45" ⟨0, 0, 1⟩⟩

/-- C11 (fails on the code): the constructor of `Support45Operation` does not
store its argument `nbTriMargin`: whatever is passed, and also when nothing is
passed, `neighbouringTriangleMargin_` is `0.05`, not the argument and not the
default `0.3`.  `SupportOperation` and `LeanOperation` store the argument, and
`LeanOperation (0.1)` is the default operation with margin `0.1`. -/
theorem C11_support45_ignores_nbTriMargin (sqrt : K → K) (margin nbTriMargin minArea : K)
    (affordanceName : String) :
    (Support45Operation sqrt margin nbTriMargin minArea affordanceName).neighbouringTriangleMargin_
        = 5 / 100 ∧
    (Support45Operation.construct sqrt none none none none).neighbouringTriangleMargin_
        = (5 / 100 : K) ∧
    (5 / 100 : K) ≠ 3 / 10 ∧
    (SupportOperation margin nbTriMargin minArea affordanceName).neighbouringTriangleMargin_
        = nbTriMargin ∧
    (LeanOperation margin nbTriMargin minArea affordanceName).neighbouringTriangleMargin_
        = nbTriMargin ∧
    (LeanOperation.construct (some (1 / 10)) none none none : OperationBase K)
        = LeanOperation (1 / 10) (3 / 10) (5 / 100) "Lean" := by
  refine ⟨rfl, rfl, by norm_num, rfl, rfl, rfl⟩

/-- C12 (fails on the code): a vertex id shared through slot `1` of the
candidate does not make it adjacent.  Reference `(0, 1, 2)` and candidate
`(5, 0, 6)` share the id `0` and are not merged (two Affordances `[0]` and
`[1]`); with the candidate written `(0, 5, 6)` they are merged.  The test reads
the slots `0`, `3` and `2` of the candidate. -/
theorem C12_shared_vertex_in_slot_one_not_adjacent :
    AffordanceAnalysis slotOnePair [defaultSupport] = .ok [[⟨[0]⟩, ⟨[1]⟩]] ∧
    AffordanceAnalysis slotZeroPair [defaultSupport] = .ok [[⟨[0, 1]⟩]] := by decide!

/-- C13 (fails on the code): the committed index list can hold a triangle of an
earlier region that missed `minArea_`.  On `twoCrumbs` the seed `0` misses the
threshold; the commit triggered by seed `1` is `[0, 1]`, although the growth
from seed `1` (entered with the list `[0, 1]`) appends nothing. -/
theorem C13_committed_list_keeps_failed_seed :
    AffordanceAnalysis twoCrumbs [defaultSupport] = .ok [[⟨[0, 1]⟩]] ∧
    searchLinkedTriangles defaultSupport twoCrumbs 3 1 ⟨[0, 1], [0, 1], 6 / 100⟩
      = .ok ⟨[0, 1], [0], 6 / 100⟩ := by decide!

/-- C14 (fails on the code): the committed index list can hold an index twice.
On `smallPatch` triangle `1` shares two vertex ids with triangle `0` and the
committed list is `[0, 1, 1]`. -/
theorem C14_committed_list_has_duplicate :
    AffordanceAnalysis smallPatch [defaultSupport] = .ok [[⟨[0, 1, 1]⟩]] ∧
    ¬ ([0, 1, 1] : List Nat).Nodup := by decide!

/-- C15: the tolerance of the growth step does not depend on the operation.  For
every mesh and every two operation lists that are equal position by position
except for the values of `neighbouringTriangleMargin_`, `AffordanceAnalysis`
has the same outcome: the same buckets with the same index lists (or the same
fault). -/
theorem C15_neighbour_margin_not_used (triangles : List (Triangle K))
    (opVec opVec' : List (OperationBase K))
    (h : List.Forall₂ SameExceptNeighbourMargin opVec opVec') :
    AffordanceAnalysis triangles opVec = AffordanceAnalysis triangles opVec' := by
  refine AffordanceAnalysis_congr triangles opVec opVec' (h.imp ?_)
  intro a b hab
  unfold SameExceptNeighbourMargin at hab
  rw [hab]
  exact ⟨rfl, rfl⟩

/-- Witness of C15: Support with neighbouring-triangle margin `0.3` and `0.1` on
`foldedSquare`. -/
theorem C15_neighbour_margin_not_used_witness :
    List.Forall₂ SameExceptNeighbourMargin [defaultSupport] [strictNeighbourSupport] ∧
    AffordanceAnalysis foldedSquare [defaultSupport]
      = AffordanceAnalysis foldedSquare [strictNeighbourSupport] :=
  ⟨foldedSquare_same_except_margin,
    C15_neighbour_margin_not_used foldedSquare [defaultSupport] [strictNeighbourSupport]
      foldedSquare_same_except_margin⟩

/-- C16: for every call of `searchLinkedTriangles` that returns, the list at
return is the list at entry followed by the indices the call appended, and the
accumulator at return is the accumulator at entry plus the sum of the areas of
the appended indices, each occurrence counted once. -/
theorem C16_accumulator_adds_appended_areas (refOp : OperationBase K)
    (allTris : List (Triangle K)) (fuel refTriIdx : Nat) (st st' : SearchState K)
    (h : searchLinkedTriangles refOp allTris fuel refTriIdx st = .ok st') :
    ∃ appended, st'.listPotential = st.listPotential ++ appended ∧
      st'.area = st.area + regionArea allTris appended :=
  searchLinkedTriangles_area refOp allTris fuel refTriIdx st st' h

/-- Witness of C16: the growth from seed `0` of the flat square. -/
theorem C16_accumulator_adds_appended_areas_witness :
    searchLinkedTriangles defaultSupport flatSquare 3 0 ⟨[0], [0, 1], 1 / 2⟩
      = .ok ⟨[0, 1], [], 1⟩ ∧
    ∃ appended, [0, 1] = [0] ++ appended ∧ (1 : ℚ) = 1 / 2 + regionArea flatSquare appended :=
  ⟨flatSquare_search,
    C16_accumulator_adds_appended_areas defaultSupport flatSquare 3 0 ⟨[0], [0, 1], 1 / 2⟩
      ⟨[0, 1], [], 1⟩ flatSquare_search⟩

/-- Counterexample to C17 as stated: the pool at return need not be a sub-list
of the pool at entry.  Called with the pool `[0, 1, 0]` and the reference index
`0`, `std::remove` leaves `[1, 1, 0]` and `pop_back` leaves `[1, 1]`, which is
the pool at return (the two triangles of `twoIslands` share no vertex). -/
theorem C17_returned_pool_not_sublist :
    searchLinkedTriangles defaultSupport twoIslands 4 0 ⟨[0], [0, 1, 0], 1⟩
      = .ok ⟨[0], [1, 1], 1⟩ ∧
    ¬ List.Sublist [1, 1] [0, 1, 0] := by decide!

/-- C17, amended: `searchLinkedTriangles` terminates on a shrinking pool.  For every
triangle vector, pool, operation and reference index: (1) with more fuel than
the pool has elements the fuel never runs out, so that the depth of the
recursion is bounded by the size of the pool; (2) the recursive call is used
only on pools strictly shorter than the pool at entry: replacing it by any
function that agrees with it on those pools does not change the outcome;
(3) the pool at return is strictly shorter than the pool at entry, holds only
indices of it, and is a sub-list of it when the pool at entry holds no index
twice. -/
theorem C17_search_terminates_on_shrinking_pool (refOp : OperationBase K)
    (allTris : List (Triangle K)) (refTriIdx : Nat) (st : SearchState K) :
    (∀ fuel, st.searchableTris.length < fuel →
      searchLinkedTriangles refOp allTris fuel refTriIdx st ≠ .error .outOfFuel) ∧
    (∀ fuel (recurse' : Nat → SearchState K → Except Fault (SearchState K)),
      (∀ i s, s.searchableTris.length < st.searchableTris.length →
        searchLinkedTriangles refOp allTris fuel i s = recurse' i s) →
      searchLinkedTriangles refOp allTris (fuel + 1) refTriIdx st
        = searchBody recurse' refOp allTris refTriIdx st) ∧
    (∀ fuel st', searchLinkedTriangles refOp allTris fuel refTriIdx st = .ok st' →
      st'.searchableTris.length < st.searchableTris.length ∧
      st'.searchableTris ⊆ st.searchableTris ∧
      (st.searchableTris.Nodup → List.Sublist st'.searchableTris st.searchableTris)) := by
  refine ⟨?_, ?_, ?_⟩
  · intro fuel hfuel
    exact searchLinkedTriangles_enough_fuel refOp allTris fuel refTriIdx st hfuel
  · intro fuel recurse' hagree
    rw [searchLinkedTriangles_succ]
    refine searchBody_recursion_on_shorter_pools _ recurse' refOp allTris refTriIdx st ?_ hagree
    intro i s s' h
    exact Nat.le_of_lt (searchLinkedTriangles_pool refOp allTris fuel i s s' h).1
  · intro fuel st' h
    have := searchLinkedTriangles_pool refOp allTris fuel refTriIdx st st' h
    exact ⟨this.1, this.2.2.1, this.2.2.2⟩

/-- Witness of C17, amended: the growth from seed `0` of the flat square, pool `[0, 1]`,
fuel `3`. -/
theorem C17_search_terminates_on_shrinking_pool_witness :
    ([0, 1] : List Nat).length < 3 ∧
    searchLinkedTriangles defaultSupport flatSquare 3 0 ⟨[0], [0, 1], 1 / 2⟩
      ≠ .error .outOfFuel ∧
    searchLinkedTriangles defaultSupport flatSquare 3 0 ⟨[0], [0, 1], 1 / 2⟩
      = .ok ⟨[0, 1], [], 1⟩ ∧
    ([0, 1] : List Nat).Nodup ∧
    List.Sublist ([] : List Nat) [0, 1] :=
  ⟨by decide,
    (C17_search_terminates_on_shrinking_pool defaultSupport flatSquare 0
      ⟨[0], [0, 1], 1 / 2⟩).1 3 (by decide),
    flatSquare_search, by decide,
    ((C17_search_terminates_on_shrinking_pool defaultSupport flatSquare 0
      ⟨[0], [0, 1], 1 / 2⟩).2.2 3 ⟨[0, 1], [], 1⟩ flatSquare_search).2.2 (by decide)⟩

/-- C18 (fails on the code): an erase-by-value is executed on a vector that does
not hold the index.  In the growth from seed `0` of `smallPatch` the candidate
`1` matches twice; the second recursive call (pool `[2]`) runs the idiom for the
index `1`, which drops the unrelated index `2` (the pool at return is empty).
On `flatSquareRotated` the same step meets an empty pool and applies
`pop_back` to it. -/
theorem C18_erase_of_absent_index :
    searchLinkedTriangles defaultSupport smallPatch 4 0 ⟨[0], [0, 1, 2], 1 / 100⟩
      = .ok ⟨[0, 1, 1], [], 7 / 100⟩ ∧
    searchLinkedTriangles defaultSupport smallPatch 2 1 ⟨[0, 1, 1], [2], 7 / 100⟩
      = .ok ⟨[0, 1, 1], [], 7 / 100⟩ ∧
    removeValue [2] 1 = .ok [] ∧
    searchLinkedTriangles defaultSupport flatSquareRotated 3 0 ⟨[0], [0, 1], 1 / 2⟩
      = .error .popBackEmpty := by decide!

/-- C19: for a unit normal `n` the `requirement` of Support with margin `ms` is
`n_z > 1 - ms / 2`, and for margins with `ms / 2 + ml ≤ 1` the `requirement` of
Support with margin `ms` and that of Lean with margin `ml` are never both true
for `n`. -/
theorem C19_support_lean_exclusive (n : Vec3 K) (ms ml nbS minS nbL minL : K)
    (nameS nameL : String) (hunit : n.squaredNorm = 1) (hm : ms / 2 + ml ≤ 1) :
    ((SupportOperation ms nbS minS nameS).requirement n = true ↔ n.z > 1 - ms / 2) ∧
    ¬ ((SupportOperation ms nbS minS nameS).requirement n = true ∧
       (LeanOperation ml nbL minL nameL).requirement n = true) := by
  have hS : (SupportOperation ms nbS minS nameS).requirement n = true ↔ n.z > 1 - ms / 2 := by
    simp only [SupportOperation, decide_eq_true_eq, Vec3.squaredNorm, Vec3.sub_x, Vec3.sub_y,
      Vec3.sub_z]
    unfold Vec3.squaredNorm at hunit
    constructor
    · intro h
      nlinarith
    · intro h
      nlinarith
  refine ⟨hS, ?_⟩
  rintro ⟨h1, h2⟩
  have hz := hS.1 h1
  simp only [LeanOperation, decide_eq_true_eq, Vec3.dot] at h2
  have h3 : n.z < ml := by
    have := le_abs_self (n.x * 0 + n.y * 0 + n.z * 1)
    simp only [mul_zero, zero_add, mul_one] at this h2
    linarith
  linarith

/-- Witness of C19: the normal `(0, 0, 1)` and the default margins `0.3`. -/
theorem C19_support_lean_exclusive_witness :
    (up.squaredNorm = 1 ∧ (3 / 10 : ℚ) / 2 + 3 / 10 ≤ 1) ∧
    ((SupportOperation (3 / 10 : ℚ) (3 / 10) (5 / 100) "Support").requirement up = true ↔
        up.z > 1 - (3 / 10 : ℚ) / 2) ∧
    ¬ ((SupportOperation (3 / 10 : ℚ) (3 / 10) (5 / 100) "Support").requirement up = true ∧
       (LeanOperation (3 / 10 : ℚ) (3 / 10) (5 / 100) "Lean").requirement up = true) :=
  ⟨⟨by decide!, by norm_num⟩,
    C19_support_lean_exclusive up (3 / 10) (3 / 10) (3 / 10) (5 / 100) (3 / 10) (5 / 100)
      "Support" "Lean" (by decide!) (by norm_num)⟩

/-- C20: the `requirement` of Support45 is invariant under a rotation of the
normal about the world z axis: two normals with the same `z` and the same
`x^2 + y^2` get the same verdict, for every margin. -/
theorem C20_support45_rotation_invariant (sqrt : K → K) (margin nbTriMargin minArea : K)
    (affordanceName : String) (n n' : Vec3 K) (hz : n'.z = n.z)
    (hxy : n'.x ^ 2 + n'.y ^ 2 = n.x ^ 2 + n.y ^ 2) :
    (Support45Operation sqrt margin nbTriMargin minArea affordanceName).requirement n
      = (Support45Operation sqrt margin nbTriMargin minArea affordanceName).requirement n' := by
  have hxy' : n'.x * n'.x + n'.y * n'.y = n.x * n.x + n.y * n.y := by
    simpa only [pow_two] using hxy
  simp only [Support45Operation, Support45Operation.projectedNormal, hz, hxy']

/-- Witness of C20: the normals `(1, 0, 0)` and `(0, 1, 0)`, the real square root. -/
theorem C20_support45_rotation_invariant_witness :
    ((0 : ℝ) = 0 ∧ (0 : ℝ) ^ 2 + 1 ^ 2 = 1 ^ 2 + 0 ^ 2) ∧
    (Support45Operation Real.sqrt (3 / 10) (3 / 10) (5 / 100) "Support45").requirement ⟨1, 0, 0⟩
      = (Support45Operation Real.sqrt (3 / 10) (3 / 10) (5 / 100) "Support45").requirement
          ⟨0, 1, 0⟩ :=
  ⟨⟨rfl, by norm_num⟩,
    C20_support45_rotation_invariant Real.sqrt (3 / 10) (3 / 10) (5 / 100) "Support45"
      ⟨1, 0, 0⟩ ⟨0, 1, 0⟩ rfl (by norm_num)⟩

end Claims

end hpp.affordance
